import Mathlib

/-!
Shallow embedding of `src/FactoryContainer.hpp`, a header-only
dependency-injection container.

Modelling choices, traced to the source:

* `std::type_index` values (interface identities) are modelled as `Nat`.
* The registry `m_factoryList : std::unordered_map<std::type_index, factory_value>`
  is modelled as an association list with first-match lookup; `unordered_map`
  keys are unique, which here is an invariant of the registration API
  (`RegisterFactory` always calls `Unregister` first).
* A stored `factory_value` is one of the two closures the code ever stores:
  the `RegisterType` lambda (a concrete implementation tag plus the declared
  dependency list, line 56-62) or the `RegisterInstance` lambda (a captured
  shared handle, line 72-75).  `Recipe` records exactly that data.
* Objects created by `std::make_shared<T>(...)` live in an explicit heap
  (`List Obj`); an object identity is its index in the heap, and a shared
  handle is `Option Nat` with `none` as the absent marker (`nullptr`).
  Each constructed object records its implementation tag and the dependency
  handles passed to its constructor, in order.
* A user-supplied constructor may throw in C++.  The parameter
  `throws : Nat → Bool` says which implementation tags have throwing
  constructors; a throw is modelled as `Except.error ()` and propagates
  exactly as the C++ exception does: `Resolve` has no catch and no guard,
  so the `pop_back` on line 138 is skipped on that path.
* The pack expansion `std::make_shared<T>(this->Resolve<Arguments>(ancestor_list)...)`
  puts the nested resolves into a function-call argument list, and the C++
  standard leaves the evaluation order of function-call arguments
  unspecified.  The reference embedding (`resolveList`, `resolveFuel`)
  fixes the left-to-right order; `resolveOrd` models the same resolve with
  the evaluation order as an explicit parameter (a permutation of the
  declaration positions), and `resolveOrd_range_eq_resolveFuel` shows the
  left-to-right order recovers the reference embedding.  Properties that do
  not depend on the argument evaluation order are proved over the reference
  embedding.
* The recursion of `Resolve` is bounded in C++ by the cycle guard; the
  embedding uses a fuel parameter, and `resolveFuel_isSome_of_lt_fuel`
  proves that the fuel chosen by the top-level `FactoryContainer.Resolve`
  never runs out, so the fuel is invisible.
* The state threaded through a resolve carries the registry itself (the
  stored lambdas capture `this`), the ancestor stack, the heap, and an
  event trace recording pushes, pops and constructor runs, which lets
  ordering claims be stated about visible events.
-/

/-- Runtime interface identity, `std::type_index` in the source. -/
abbrev TypeIndex := Nat

/-- A factory recipe stored in the registry: either the `RegisterInstance`
lambda (capturing a handle to an already-built object) or the `RegisterType`
lambda (a concrete implementation tag plus its declared dependency list). -/
inductive Recipe where
  | instRecipe (h : Nat)
  | typeRecipe (impl : Nat) (deps : List TypeIndex)
deriving DecidableEq, Repr

/-- The container: just the registry `m_factoryList`. -/
structure FactoryContainer where
  m_factoryList : List (TypeIndex × Recipe)
deriving DecidableEq, Repr

/-- The empty container produced by the default constructor (line 41). -/
def FactoryContainer.empty : FactoryContainer := ⟨[]⟩

/-- `Unregister<I>` (lines 81-90): erase the entry for the key if present. -/
def FactoryContainer.Unregister (c : FactoryContainer) (key : TypeIndex) :
    FactoryContainer :=
  ⟨c.m_factoryList.eraseP (fun p => p.1 == key)⟩

/-- `RegisterFactory<I>` (lines 105-114): unregister the key first, then
store the new recipe under it. -/
def FactoryContainer.RegisterFactory (c : FactoryContainer) (key : TypeIndex)
    (f : Recipe) : FactoryContainer :=
  ⟨(key, f) :: (c.Unregister key).m_factoryList⟩

/-- `RegisterType<I, T, Arguments...>` (lines 50-64).  The `static_assert`
subtype check is compile-time only and has no runtime content. -/
def FactoryContainer.RegisterType (c : FactoryContainer) (key : TypeIndex)
    (impl : Nat) (deps : List TypeIndex) : FactoryContainer :=
  c.RegisterFactory key (.typeRecipe impl deps)

/-- `RegisterInstance<I>` (lines 69-77): store a recipe returning the
captured handle. -/
def FactoryContainer.RegisterInstance (c : FactoryContainer) (key : TypeIndex)
    (h : Nat) : FactoryContainer :=
  c.RegisterFactory key (.instRecipe h)

/-- A constructed object: its concrete implementation tag and the dependency
handles its constructor received, in order (`none` is an absent handle). -/
structure Obj where
  impl : Nat
  args : List (Option Nat)
deriving DecidableEq, Repr

/-- Observable events of a resolve: pushing a key onto the ancestor stack,
popping it, and running a constructor (`std::make_shared<T>`). -/
inductive Event where
  | push (key : TypeIndex)
  | pop (key : TypeIndex)
  | construct (objId : Nat) (impl : Nat) (args : List (Option Nat))
deriving DecidableEq, Repr

/-- The state threaded through a resolve chain: the registry visible through
the captured `this`, the ancestor stack (head  = top, mirroring
`push_back`/`pop_back`), the heap of constructed objects, and the event
trace. -/
structure ResolveState where
  m_factoryList : List (TypeIndex × Recipe)
  ancestor_list : List TypeIndex
  heap : List Obj
  events : List Event
deriving DecidableEq, Repr

/-- `ancestor_list->push_back(key)` (line 136). -/
def pushKey (key : TypeIndex) (st : ResolveState) : ResolveState :=
  { st with ancestor_list := key :: st.ancestor_list
            events := st.events ++ [Event.push key] }

/-- `ancestor_list->pop_back()` (line 138, reached only when the recipe
returned normally). -/
def popKey (key : TypeIndex) (st : ResolveState) : ResolveState :=
  { st with ancestor_list := st.ancestor_list.tail
            events := st.events ++ [Event.pop key] }

/-- Resolution of a dependency list in the reference left-to-right order
(one admissible evaluation order of the pack-expanded arguments on line 61;
the C++ standard leaves the choice unspecified — `resolveDepsOrd` below
takes the order as a parameter).  A thrown exception stops the remaining
evaluations and propagates. -/
def resolveList
    (resolve : TypeIndex → ResolveState → Option (Except Unit (Option Nat) × ResolveState)) :
    List TypeIndex → ResolveState →
      Option (Except Unit (List (Option Nat)) × ResolveState)
  | [], st => some (.ok [], st)
  | d :: ds, st =>
    match resolve d st with
    | none => none
    | some (.error e, st1) => some (.error e, st1)
    | some (.ok h, st1) =>
      match resolveList resolve ds st1 with
      | none => none
      | some (.error e, st2) => some (.error e, st2)
      | some (.ok hs, st2) => some (.ok (h :: hs), st2)

/-- The private `Resolve<I>(type_list*)` (lines 116-141), with fuel.
`none` means the fuel ran out (shown impossible for the fuel used by the
public `Resolve`); `some (.error (), st)` means a constructor threw and the
exception is propagating; `some (.ok r, st)` is a normal return with `r`
the returned handle (`none` = `nullptr`). -/
def resolveFuel (throws : Nat → Bool) :
    Nat → TypeIndex → ResolveState → Option (Except Unit (Option Nat) × ResolveState)
  | 0, _, _ => none
  | fuel + 1, key, st =>
    match st.m_factoryList.lookup key with
    | none => some (.ok none, st)
    | some recipe =>
      if key ∈ st.ancestor_list then
        some (.ok none, st)
      else
        let st1 := pushKey key st
        match recipe with
        | .instRecipe h => some (.ok (some h), popKey key st1)
        | .typeRecipe impl deps =>
          match resolveList (resolveFuel throws fuel) deps st1 with
          | none => none
          | some (.error e, st2) => some (.error e, st2)
          | some (.ok args, st2) =>
            if throws impl then
              some (.error (), st2)
            else
              let objId := st2.heap.length
              some (.ok (some objId),
                popKey key
                  { st2 with
                    heap := st2.heap ++ [⟨impl, args⟩]
                    events := st2.events ++ [Event.construct objId impl args] })

/-- The fresh state a top-level resolve starts from: the ancestor stack is a
new empty local (line 98); the heap persists across calls. -/
def mkState (c : FactoryContainer) (heap : List Obj) : ResolveState :=
  ⟨c.m_factoryList, [], heap, []⟩

/-- The public `Resolve<I>()` (lines 94-100): allocate a fresh ancestor
stack and run the private resolve.  The fuel `length + 1` is proved
sufficient below. -/
def FactoryContainer.Resolve (c : FactoryContainer) (throws : Nat → Bool)
    (key : TypeIndex) (heap : List Obj) :
    Option (Except Unit (Option Nat) × ResolveState) :=
  resolveFuel throws (c.m_factoryList.length + 1) key (mkState c heap)

instance {α : Type} [DecidableEq α] : DecidableEq (Except Unit α) := fun a b =>
  match a, b with
  | .ok x, .ok y => if h : x = y then .isTrue (by rw [h]) else .isFalse (by simp [h])
  | .error _, .error _ => .isTrue (by rfl)
  | .ok _, .error _ => .isFalse (by simp)
  | .error _, .ok _ => .isFalse (by simp)

/-- Whether a result is a normal return (no exception propagating). -/
def isOkE {α : Type} : Except Unit α → Bool
  | .ok _ => true
  | .error _ => false

/-- What any resolve step preserves about the threaded state: the registry is
untouched, the heap and the event trace only grow, and — on a normal return
(`ok = true`), where the skipped-`pop_back` path cannot occur — the ancestor
stack is restored. -/
def StatePres (ok : Bool) (st st' : ResolveState) : Prop :=
  st'.m_factoryList = st.m_factoryList ∧
  (∃ t, st'.heap = st.heap ++ t) ∧
  (∃ e, st'.events = st.events ++ e) ∧
  (ok = true → st'.ancestor_list = st.ancestor_list)

/-- Left-to-right chain of successful dependency resolves: `DepChain throws
fuel deps st args st'` says the dependencies `deps`, resolved strictly in
declaration order starting from `st`, produced the handles `args` in the
same order and left the state `st'`. -/
inductive DepChain (throws : Nat → Bool) (fuel : Nat) :
    List TypeIndex → ResolveState → List (Option Nat) → ResolveState → Prop where
  | nil (st : ResolveState) : DepChain throws fuel [] st [] st
  | cons {d : TypeIndex} {ds : List TypeIndex} {st st1 st2 : ResolveState}
      {h : Option Nat} {hs : List (Option Nat)}
      (hd : resolveFuel throws fuel d st = some (.ok h, st1))
      (tl : DepChain throws fuel ds st1 hs st2) :
      DepChain throws fuel (d :: ds) st (h :: hs) st2

/-- The registered keys not yet on the ancestor stack; its length bounds the
remaining recursion depth of `resolveFuel`. -/
def availKeys (st : ResolveState) : List TypeIndex :=
  (st.m_factoryList.map Prod.fst).dedup.filter (fun k => k ∉ st.ancestor_list)

/-- A registry operation of the public mutation API. -/
inductive Op where
  | regType (key impl : Nat) (deps : List TypeIndex)
  | regInst (key h : Nat)
  | unreg (key : Nat)
deriving DecidableEq, Repr

/-- The interface identity an operation touches. -/
def Op.target : Op → TypeIndex
  | .regType key _ _ => key
  | .regInst key _ => key
  | .unreg key => key

/-- Apply one registry operation. -/
def applyOp (c : FactoryContainer) : Op → FactoryContainer
  | .regType key impl deps => c.RegisterType key impl deps
  | .regInst key h => c.RegisterInstance key h
  | .unreg key => c.Unregister key

/-- The container reached from the empty container by a sequence of
registry operations. -/
def applyOps (ops : List Op) : FactoryContainer :=
  ops.foldl applyOp FactoryContainer.empty

/-- No operation in the sequence touches the identity `key`. -/
@[reducible]
def NoTouch (ops : List Op) (key : TypeIndex) : Prop :=
  ∀ op ∈ ops, op.target ≠ key

/-- The pack expansion on line 61 puts the nested resolves into the
argument list of an ordinary function call, and the C++ standard leaves the
evaluation order of function-call arguments unspecified.  This definition
evaluates the nested resolves in the implementation-chosen order `order`, a
list of positions into the declared dependency list: each chosen position's
dependency is resolved and its handle recorded together with its
declaration position; a thrown exception stops the remaining evaluations
and propagates.  `List.range deps.length` is the left-to-right reference
order fixed by `resolveList`. -/
def resolveDepsOrd
    (resolve : TypeIndex → ResolveState → Option (Except Unit (Option Nat) × ResolveState)) :
    List Nat → List TypeIndex → ResolveState →
      Option (Except Unit (List (Nat × Option Nat)) × ResolveState)
  | [], _, st => some (.ok [], st)
  | i :: rest, deps, st =>
    match deps.get? i with
    | none => none
    | some d =>
      match resolve d st with
      | none => none
      | some (.error e, st1) => some (.error e, st1)
      | some (.ok h, st1) =>
        match resolveDepsOrd resolve rest deps st1 with
        | none => none
        | some (.error e, st2) => some (.error e, st2)
        | some (.ok phs, st2) => some (.ok ((i, h) :: phs), st2)

/-- Assembling the constructor argument list from the recorded
(position, handle) pairs: whatever order the argument resolves ran in, the
expanded arguments are bound to the constructor parameters positionally,
so the argument at declaration position `i` is the handle produced by the
nested resolve of dependency `i`. -/
def assembleArgs (n : Nat) (phs : List (Nat × Option Nat)) : List (Option Nat) :=
  (List.range n).map (fun i => (phs.lookup i).getD none)

/-- The private `Resolve` (lines 116-141) with the argument evaluation
order of the type-recipe pack expansion (line 61) made explicit as the
parameter `order`; everything else mirrors `resolveFuel`, and nested
resolves run on `resolveFuel` itself.  With the left-to-right order
`List.range deps.length` this coincides with `resolveFuel` (proved in
`resolveOrd_range_eq_resolveFuel`). -/
def resolveOrd (throws : Nat → Bool) (fuel : Nat) (order : List Nat)
    (key : TypeIndex) (st : ResolveState) :
    Option (Except Unit (Option Nat) × ResolveState) :=
  match st.m_factoryList.lookup key with
  | none => some (.ok none, st)
  | some recipe =>
    if key ∈ st.ancestor_list then
      some (.ok none, st)
    else
      let st1 := pushKey key st
      match recipe with
      | .instRecipe h => some (.ok (some h), popKey key st1)
      | .typeRecipe impl deps =>
        match resolveDepsOrd (resolveFuel throws fuel) order deps st1 with
        | none => none
        | some (.error e, st2) => some (.error e, st2)
        | some (.ok phs, st2) =>
          if throws impl then
            some (.error (), st2)
          else
            let args := assembleArgs deps.length phs
            some (.ok (some st2.heap.length),
              popKey key
                { st2 with
                  heap := st2.heap ++ [⟨impl, args⟩]
                  events := st2.events ++
                    [Event.construct st2.heap.length impl args] })

/-- The nested resolves of one type-recipe invocation in evaluation order
`order`: the `k`-th evaluated argument is the nested resolve of the
dependency declared at position `order.get k`, and its handle is recorded
with that declaration position. -/
inductive OrdChain (throws : Nat → Bool) (fuel : Nat) :
    List Nat → List TypeIndex → ResolveState → List (Nat × Option Nat) →
      ResolveState → Prop where
  | nil (deps : List TypeIndex) (st : ResolveState) :
      OrdChain throws fuel [] deps st [] st
  | cons {i : Nat} {rest : List Nat} {deps : List TypeIndex}
      {st st1 st2 : ResolveState} {d : TypeIndex} {h : Option Nat}
      {phs : List (Nat × Option Nat)}
      (hd : deps.get? i = some d)
      (hr : resolveFuel throws fuel d st = some (.ok h, st1))
      (tl : OrdChain throws fuel rest deps st1 phs st2) :
      OrdChain throws fuel (i :: rest) deps st ((i, h) :: phs) st2

theorem StatePres.refl (b : Bool) (st : ResolveState) : StatePres b st st :=
  ⟨rfl, ⟨[], (List.append_nil _).symm⟩, ⟨[], (List.append_nil _).symm⟩, fun _ => rfl⟩

theorem StatePres.trans {b1 b2 : Bool} {st st1 st2 : ResolveState}
    (h1 : StatePres b1 st st1) (h2 : StatePres b2 st1 st2) :
    StatePres (b1 && b2) st st2 := by
  obtain ⟨r1, ⟨t1, ht1⟩, ⟨e1, he1⟩, a1⟩ := h1
  obtain ⟨r2, ⟨t2, ht2⟩, ⟨e2, he2⟩, a2⟩ := h2
  refine ⟨r2.trans r1, ⟨t1 ++ t2, by rw [ht2, ht1, List.append_assoc]⟩,
    ⟨e1 ++ e2, by rw [he2, he1, List.append_assoc]⟩, ?_⟩
  intro hb
  simp only [Bool.and_eq_true] at hb
  rw [a2 hb.2, a1 hb.1]

theorem StatePres.weaken {b : Bool} {st st' : ResolveState} (h : StatePres b st st') :
    StatePres false st st' :=
  ⟨h.1, h.2.1, h.2.2.1, by simp⟩

theorem StatePres.push (key : TypeIndex) (st : ResolveState) :
    StatePres false st (pushKey key st) :=
  ⟨rfl, ⟨[], (List.append_nil _).symm⟩, ⟨[Event.push key], rfl⟩, by simp⟩

/-- `resolveList` preserves the state in the sense of `StatePres`, given
that the underlying resolver does. -/
theorem resolveList_pres
    (resolve : TypeIndex → ResolveState → Option (Except Unit (Option Nat) × ResolveState))
    (H : ∀ d st r st', resolve d st = some (r, st') → StatePres (isOkE r) st st') :
    ∀ (deps : List TypeIndex) (st : ResolveState) (r : Except Unit (List (Option Nat)))
      (st' : ResolveState),
      resolveList resolve deps st = some (r, st') → StatePres (isOkE r) st st' := by
  intro deps
  induction deps with
  | nil =>
    intro st r st' h
    simp only [resolveList, Option.some.injEq, Prod.mk.injEq] at h
    obtain ⟨rfl, rfl⟩ := h
    exact StatePres.refl _ _
  | cons d ds ih =>
    intro st r st' h
    simp only [resolveList] at h
    split at h
    · exact absurd h (by simp)
    · rename_i heq
      obtain ⟨rfl, rfl⟩ := by simpa using h
      exact (H _ _ _ _ heq).weaken
    · rename_i h1 st1 heq
      split at h
      · exact absurd h (by simp)
      · rename_i heq2
        obtain ⟨rfl, rfl⟩ := by simpa using h
        have := (H _ _ _ _ heq).trans (ih _ _ _ heq2)
        simpa using this
      · rename_i hs st2 heq2
        obtain ⟨rfl, rfl⟩ := by simpa using h
        have := (H _ _ _ _ heq).trans (ih _ _ _ heq2)
        simpa using this

/-- `resolveFuel` preserves the state: the registry is untouched, heap and
events only grow, and on a normal (non-throwing) return the ancestor stack
is restored. -/
theorem resolveFuel_pres (throws : Nat → Bool) :
    ∀ (fuel : Nat) (key : TypeIndex) (st : ResolveState) (r : Except Unit (Option Nat))
      (st' : ResolveState),
      resolveFuel throws fuel key st = some (r, st') → StatePres (isOkE r) st st' := by
  intro fuel
  induction fuel with
  | zero => intro key st r st' h; simp [resolveFuel] at h
  | succ fuel ih =>
    intro key st r st' h
    simp only [resolveFuel] at h
    split at h
    · obtain ⟨rfl, rfl⟩ := by simpa using h
      exact StatePres.refl _ _
    · rename_i recipe hlook
      split at h
      · obtain ⟨rfl, rfl⟩ := by simpa using h
        exact StatePres.refl _ _
      · rename_i hmem
        split at h
        · rename_i h0
          obtain ⟨rfl, rfl⟩ := by simpa using h
          refine ⟨rfl, ⟨[], by simp [popKey, pushKey]⟩,
            ⟨[Event.push key, Event.pop key], by simp [popKey, pushKey]⟩,
            fun _ => by simp [popKey, pushKey]⟩
        · rename_i impl deps
          split at h
          · exact absurd h (by simp)
          · rename_i e st2 heq
            obtain ⟨rfl, rfl⟩ := by simpa using h
            have hlist := resolveList_pres _ (fun d s r s' hh => ih d s r s' hh) _ _ _ _ heq
            have := (StatePres.push key st).trans hlist
            simpa using this
          · rename_i args st2 heq
            have hlist := resolveList_pres _ (fun d s r s' hh => ih d s r s' hh) _ _ _ _ heq
            have hpre : StatePres true (pushKey key st) st2 := by simpa using hlist
            split at h
            · obtain ⟨rfl, rfl⟩ := by simpa using h
              have := (StatePres.push key st).trans hpre
              simpa using this
            · obtain ⟨rfl, rfl⟩ := by simpa using h
              obtain ⟨hreg, ⟨t, ht⟩, ⟨e, he⟩, hanc⟩ := hpre
              refine ⟨by simpa [popKey, pushKey] using hreg, ?_, ?_, ?_⟩
              · exact ⟨t ++ [⟨impl, args⟩], by
                  simp [popKey, pushKey] at ht ⊢
                  rw [ht, List.append_assoc]⟩
              · refine ⟨(Event.push key :: e) ++
                  [Event.construct st2.heap.length impl args, Event.pop key], ?_⟩
                simp [popKey, pushKey] at he ⊢
                rw [he]
                simp
              · intro _
                have : st2.ancestor_list = key :: st.ancestor_list := by
                  simpa [pushKey] using hanc rfl
                simp [popKey, this]

theorem lookup_mem {l : List (TypeIndex × Recipe)} {k : TypeIndex} {v : Recipe}
    (h : l.lookup k = some v) : k ∈ l.map Prod.fst := by
  induction l with
  | nil => simp [List.lookup] at h
  | cons p l ih =>
    rw [List.lookup] at h
    by_cases hk : k = p.1
    · simp [hk]
    · have : (k == p.1) = false := by simpa using hk
      rw [this] at h
      simp [ih h]

/-- Pushing a key that is registered and not yet on the stack strictly
shrinks the set of registered keys still available for deeper recursion. -/
theorem availKeys_push_lt {key : TypeIndex} {st : ResolveState}
    (hk : key ∈ st.m_factoryList.map Prod.fst) (hm : key ∉ st.ancestor_list) :
    (availKeys (pushKey key st)).length < (availKeys st).length := by
  have hEq : availKeys (pushKey key st) =
      (availKeys st).filter (fun k => !(k == key)) := by
    simp only [availKeys, pushKey, List.filter_filter]
    refine List.filter_congr ?_
    intro x _
    by_cases hx : x = key <;> by_cases ha : x ∈ st.ancestor_list <;>
      simp [hx, ha]
  rw [hEq]
  refine List.length_filter_lt_length_iff_exists.mpr ?_
  exact ⟨key, by simp [availKeys, List.mem_dedup.mpr hk, hm], by simp⟩

/-- `availKeys` only depends on the registry and the ancestor stack. -/
theorem availKeys_congr {st st' : ResolveState}
    (h1 : st'.m_factoryList = st.m_factoryList)
    (h2 : st'.ancestor_list = st.ancestor_list) :
    availKeys st' = availKeys st := by
  simp [availKeys, h1, h2]

theorem resolveList_isSome
    (resolve : TypeIndex → ResolveState → Option (Except Unit (Option Nat) × ResolveState))
    (reg : List (TypeIndex × Recipe)) (anc : List TypeIndex)
    (H : ∀ d st, st.m_factoryList = reg → st.ancestor_list = anc → resolve d st ≠ none)
    (Hpres : ∀ d st r st', resolve d st = some (r, st') → StatePres (isOkE r) st st') :
    ∀ (deps : List TypeIndex) (st : ResolveState),
      st.m_factoryList = reg → st.ancestor_list = anc →
      resolveList resolve deps st ≠ none := by
  intro deps
  induction deps with
  | nil => intro st _ _; simp [resolveList]
  | cons d ds ih =>
    intro st hreg hanc
    rw [resolveList]
    rcases hres : resolve d st with _ | ⟨r, st1⟩
    · exact absurd hres (H d st hreg hanc)
    · rcases r with e | h
      · simp [hres]
      · have hp := Hpres d st _ _ hres
        have h1 : st1.m_factoryList = reg := hp.1.trans hreg
        have h2 : st1.ancestor_list = anc := (hp.2.2.2 rfl).trans hanc
        rcases hres2 : resolveList resolve ds st1 with _ | ⟨r2, st2⟩
        · exact absurd hres2 (ih st1 h1 h2)
        · rcases r2 with e | hs <;> simp [hres, hres2]

/-- The cycle guard bounds the recursion: with more fuel than there are
registered keys off the ancestor stack, `resolveFuel` never runs out. -/
theorem resolveFuel_isSome_of_lt_fuel (throws : Nat → Bool) :
    ∀ (fuel : Nat) (key : TypeIndex) (st : ResolveState),
      (availKeys st).length < fuel → resolveFuel throws fuel key st ≠ none := by
  intro fuel
  induction fuel with
  | zero => intro key st h; exact absurd h (by simp)
  | succ fuel ih =>
    intro key st hfuel
    rw [resolveFuel]
    rcases hl : st.m_factoryList.lookup key with _ | recipe
    · simp
    · simp only
      split
      · simp
      · rename_i hm
        rcases recipe with h | ⟨impl, deps⟩
        · simp
        · have hklt : (availKeys (pushKey key st)).length < fuel := by
            have := availKeys_push_lt (lookup_mem hl) hm
            omega
          have hlist : resolveList (resolveFuel throws fuel) deps (pushKey key st) ≠ none := by
            refine resolveList_isSome _ st.m_factoryList (key :: st.ancestor_list)
              (fun d s hreg hanc => ih d s ?_)
              (fun d s r s' hh => resolveFuel_pres throws fuel d s r s' hh)
              deps (pushKey key st) (by simp [pushKey]) (by simp [pushKey])
            have : availKeys s = availKeys (pushKey key st) :=
              availKeys_congr (by simp [pushKey, hreg]) (by simp [pushKey, hanc])
            rw [this]
            exact hklt
          rcases hres : resolveList (resolveFuel throws fuel) deps (pushKey key st) with
            _ | ⟨r, st2⟩
          · exact absurd hres hlist
          · rcases r with e | args
            · simp [hres]
            · by_cases ht : throws impl <;> simp [hres, ht]

theorem resolveFuel_lookup_none {throws : Nat → Bool} {fuel : Nat} {key : TypeIndex}
    {st : ResolveState} (h : st.m_factoryList.lookup key = none) :
    resolveFuel throws (fuel + 1) key st = some (.ok none, st) := by
  simp [resolveFuel, h]

/-- The cycle guard (lines 128-132): a key already on the ancestor stack
resolves to the absent marker without invoking its recipe and without
touching the state. -/
theorem resolveFuel_cycle {throws : Nat → Bool} {fuel : Nat} {key : TypeIndex}
    {st : ResolveState} {recipe : Recipe}
    (hl : st.m_factoryList.lookup key = some recipe)
    (hm : key ∈ st.ancestor_list) :
    resolveFuel throws (fuel + 1) key st = some (.ok none, st) := by
  simp [resolveFuel, hl, hm]

/-- An instance recipe returns the captured handle. -/
theorem resolveFuel_instRecipe {throws : Nat → Bool} {fuel : Nat} {key h : Nat}
    {st : ResolveState}
    (hl : st.m_factoryList.lookup key = some (.instRecipe h))
    (hm : key ∉ st.ancestor_list) :
    resolveFuel throws (fuel + 1) key st =
      some (.ok (some h), popKey key (pushKey key st)) := by
  simp [resolveFuel, hl, hm]

/-- Forward computation of a type-recipe resolve whose dependency list
resolved normally and whose constructor does not throw. -/
theorem resolveFuel_typeRecipe_eq {throws : Nat → Bool} {fuel : Nat}
    {key impl : Nat} {deps : List TypeIndex} {st st2 : ResolveState}
    {args : List (Option Nat)}
    (hl : st.m_factoryList.lookup key = some (.typeRecipe impl deps))
    (hm : key ∉ st.ancestor_list)
    (hdeps : resolveList (resolveFuel throws fuel) deps (pushKey key st) =
      some (.ok args, st2))
    (hth : throws impl = false) :
    resolveFuel throws (fuel + 1) key st =
      some (.ok (some st2.heap.length),
        popKey key
          { st2 with
            heap := st2.heap ++ [⟨impl, args⟩]
            events := st2.events ++ [Event.construct st2.heap.length impl args] }) := by
  simp [resolveFuel, hl, hm, hdeps, hth]

/-- Inversion of a normally-returning type-recipe resolve: the dependency
list resolved normally, the constructor did not throw, and the result is a
handle to the object just appended to the heap. -/
theorem resolveFuel_typeRecipe_ok {throws : Nat → Bool} {fuel : Nat}
    {key impl : Nat} {deps : List TypeIndex} {st st' : ResolveState}
    {r : Option Nat}
    (hl : st.m_factoryList.lookup key = some (.typeRecipe impl deps))
    (hm : key ∉ st.ancestor_list)
    (h : resolveFuel throws (fuel + 1) key st = some (.ok r, st')) :
    ∃ args st2,
      resolveList (resolveFuel throws fuel) deps (pushKey key st) =
        some (.ok args, st2) ∧
      throws impl = false ∧
      r = some st2.heap.length ∧
      st' = popKey key
        { st2 with
          heap := st2.heap ++ [⟨impl, args⟩]
          events := st2.events ++ [Event.construct st2.heap.length impl args] } := by
  simp only [resolveFuel, hl, hm, if_false] at h
  split at h
  · exact absurd h (by simp)
  · exact absurd h (by simp)
  · rename_i args st2 heq
    split at h
    · exact absurd h (by simp)
    · rename_i hth
      obtain ⟨h1, rfl⟩ := by simpa using h
      exact ⟨args, st2, heq, by simpa using hth, h1.symm, rfl⟩

/-- `resolveList` over `resolveFuel` returns normally exactly when the
dependencies form a left-to-right resolution chain. -/
theorem resolveList_ok_iff_depChain {throws : Nat → Bool} {fuel : Nat} :
    ∀ {deps : List TypeIndex} {st : ResolveState} {args : List (Option Nat)}
      {st' : ResolveState},
      resolveList (resolveFuel throws fuel) deps st = some (.ok args, st') ↔
      DepChain throws fuel deps st args st' := by
  intro deps
  induction deps with
  | nil =>
    intro st args st'
    constructor
    · intro h
      simp only [resolveList, Option.some.injEq, Prod.mk.injEq,
        Except.ok.injEq] at h
      obtain ⟨rfl, rfl⟩ := h
      exact .nil st
    · intro h
      cases h
      simp [resolveList]
  | cons d ds ih =>
    intro st args st'
    constructor
    · intro h
      rw [resolveList] at h
      split at h
      · exact absurd h (by simp)
      · exact absurd h (by simp)
      · rename_i h1 st1 heq
        split at h
        · exact absurd h (by simp)
        · exact absurd h (by simp)
        · rename_i hs st2 heq2
          obtain ⟨rfl, rfl⟩ := by simpa using h
          exact .cons heq (ih.mp heq2)
    · intro h
      cases h with
      | cons hd tl => simp [resolveList, hd, ih.mpr tl]

/-- A dependency chain produces exactly one handle per declared dependency. -/
theorem DepChain.length_eq {throws : Nat → Bool} {fuel : Nat} :
    ∀ {deps : List TypeIndex} {st : ResolveState} {args : List (Option Nat)}
      {st' : ResolveState},
      DepChain throws fuel deps st args st' → args.length = deps.length := by
  intro deps st args st' h
  induction h with
  | nil => rfl
  | cons _ _ ih => simpa using ih

theorem lookup_eq_none_iff {l : List (TypeIndex × Recipe)} {key : TypeIndex} :
    l.lookup key = none ↔ key ∉ l.map Prod.fst := by
  induction l with
  | nil => simp [List.lookup]
  | cons p l ih =>
    rw [List.lookup]
    by_cases hk : key = p.1
    · have : (key == p.1) = true := by simpa using hk
      simp [this, hk]
    · have : (key == p.1) = false := by simpa using hk
      simp [this, hk, ih]

/-- After erasing a key's entry from a duplicate-free registry, the key is
gone. -/
theorem not_mem_keys_eraseP {l : List (TypeIndex × Recipe)} {key : TypeIndex}
    (hn : (l.map Prod.fst).Nodup) :
    key ∉ (l.eraseP (fun p => p.1 == key)).map Prod.fst := by
  induction l with
  | nil => simp
  | cons p l ih =>
    rw [List.map_cons, List.nodup_cons] at hn
    by_cases hk : p.1 = key
    · rw [List.eraseP_cons_of_pos (by simpa using hk)]
      rw [hk] at hn
      exact fun hmem => hn.1 hmem
    · rw [List.eraseP_cons_of_neg (by simpa using hk)]
      rw [List.map_cons]
      intro hmem
      rcases List.mem_cons.mp hmem with h | h
      · exact hk h.symm
      · exact ih hn.2 h

/-- `Unregister` keeps the registry keys duplicate-free. -/
theorem keys_nodup_Unregister {c : FactoryContainer} {key : TypeIndex}
    (hn : (c.m_factoryList.map Prod.fst).Nodup) :
    ((c.Unregister key).m_factoryList.map Prod.fst).Nodup :=
  hn.sublist ((List.eraseP_sublist _).map Prod.fst)

/-- `RegisterFactory` keeps the registry keys duplicate-free. -/
theorem keys_nodup_RegisterFactory {c : FactoryContainer} {key : TypeIndex}
    {f : Recipe} (hn : (c.m_factoryList.map Prod.fst).Nodup) :
    ((c.RegisterFactory key f).m_factoryList.map Prod.fst).Nodup := by
  rw [FactoryContainer.RegisterFactory]
  simp only [List.map_cons, List.nodup_cons]
  exact ⟨not_mem_keys_eraseP hn, keys_nodup_Unregister hn⟩

/-- Every container reachable through the registration API has
duplicate-free registry keys: each present identity has exactly one
recipe. -/
theorem applyOps_keys_nodup (ops : List Op) :
    ((applyOps ops).m_factoryList.map Prod.fst).Nodup := by
  have main : ∀ (l : List Op) (c : FactoryContainer),
      (c.m_factoryList.map Prod.fst).Nodup →
      ((l.foldl applyOp c).m_factoryList.map Prod.fst).Nodup := by
    intro l
    induction l with
    | nil => intro c hc; simpa using hc
    | cons op l ih =>
      intro c hc
      rw [List.foldl_cons]
      refine ih _ ?_
      rcases op with ⟨k, i, ds⟩ | ⟨k, h⟩ | k
      · exact keys_nodup_RegisterFactory hc
      · exact keys_nodup_RegisterFactory hc
      · exact keys_nodup_Unregister hc
  exact main ops FactoryContainer.empty (by simp [FactoryContainer.empty])

/-- Looking up the key just registered finds the new recipe. -/
theorem lookup_RegisterFactory_self (c : FactoryContainer) (key : TypeIndex)
    (f : Recipe) :
    (c.RegisterFactory key f).m_factoryList.lookup key = some f := by
  simp [FactoryContainer.RegisterFactory, List.lookup]

/-- Erasing one key's entry does not change lookups of other keys. -/
theorem lookup_eraseP_other {l : List (TypeIndex × Recipe)} {k key : TypeIndex}
    (hk : k ≠ key) :
    (l.eraseP (fun p => p.1 == key)).lookup k = l.lookup k := by
  induction l with
  | nil => simp
  | cons p l ih =>
    by_cases hp : p.1 = key
    · rw [List.eraseP_cons_of_pos (by simpa using hp)]
      rw [List.lookup]
      have : (k == p.1) = false := by simp [hp, hk]
      rw [this]
    · rw [List.eraseP_cons_of_neg (by simpa using hp)]
      rw [List.lookup, List.lookup]
      rcases hbeq : (k == p.1) with _ | _
      · exact ih
      · rfl

/-- Registering one key does not change lookups of other keys. -/
theorem lookup_RegisterFactory_other {c : FactoryContainer} {k key : TypeIndex}
    {f : Recipe} (hk : k ≠ key) :
    (c.RegisterFactory key f).m_factoryList.lookup k =
      c.m_factoryList.lookup k := by
  rw [FactoryContainer.RegisterFactory]
  rw [List.lookup]
  have : (k == key) = false := by simpa using hk
  rw [this]
  exact lookup_eraseP_other hk

/-- Unregistering one key does not change lookups of other keys. -/
theorem lookup_Unregister_other {c : FactoryContainer} {k key : TypeIndex}
    (hk : k ≠ key) :
    (c.Unregister key).m_factoryList.lookup k = c.m_factoryList.lookup k :=
  lookup_eraseP_other hk

/-- On a duplicate-free registry, `Unregister` removes the key. -/
theorem lookup_Unregister_self {c : FactoryContainer} {key : TypeIndex}
    (hn : (c.m_factoryList.map Prod.fst).Nodup) :
    (c.Unregister key).m_factoryList.lookup key = none :=
  lookup_eq_none_iff.mpr (not_mem_keys_eraseP hn)

/-- `Unregister` of an absent key is a no-op on the container. -/
theorem Unregister_absent {c : FactoryContainer} {key : TypeIndex}
    (h : c.m_factoryList.lookup key = none) : c.Unregister key = c := by
  have hmem := lookup_eq_none_iff.mp h
  rw [FactoryContainer.Unregister]
  have : c.m_factoryList.eraseP (fun p => p.1 == key) = c.m_factoryList := by
    refine List.eraseP_of_forall_not ?_
    intro p hp hbeq
    exact hmem (List.mem_map.mpr ⟨p, hp, by simpa using hbeq⟩)
  rw [this]

/-- Operations not touching a key leave its lookup unchanged. -/
theorem lookup_foldl_noTouch {ops : List Op} {key : TypeIndex}
    (h : NoTouch ops key) :
    ∀ c : FactoryContainer,
      ((ops.foldl applyOp c).m_factoryList.lookup key) =
        c.m_factoryList.lookup key := by
  induction ops with
  | nil => intro c; rfl
  | cons op l ih =>
    intro c
    rw [List.foldl_cons]
    have hop : op.target ≠ key := h op (by simp)
    have htail : NoTouch l key := fun o ho => h o (by simp [ho])
    rw [ih htail]
    rcases op with ⟨k, i, ds⟩ | ⟨k, hh⟩ | k
    · exact lookup_RegisterFactory_other (fun hk => hop hk.symm)
    · exact lookup_RegisterFactory_other (fun hk => hop hk.symm)
    · exact lookup_Unregister_other (fun hk => hop hk.symm)

/-- C9: `Resolve` terminates for every registry contents and every requested
interface, including registries with direct or indirect dependency cycles:
the recursion depth is bounded by the number of registered interfaces
(the public resolve runs on fuel `length + 1` and the fuel never runs out),
so no unbounded recursion occurs. -/
theorem c9_resolve_always_terminates (c : FactoryContainer) (throws : Nat → Bool)
    (key : TypeIndex) (heap : List Obj) :
    (c.Resolve throws key heap).isSome := by
  rw [FactoryContainer.Resolve]
  have h1 : availKeys (mkState c heap) = (c.m_factoryList.map Prod.fst).dedup := by
    simp [availKeys, mkState]
  have h2 : (availKeys (mkState c heap)).length < c.m_factoryList.length + 1 := by
    rw [h1]
    have hle := (List.dedup_sublist (c.m_factoryList.map Prod.fst)).length_le
    rw [List.length_map] at hle
    omega
  have h3 := resolveFuel_isSome_of_lt_fuel throws _ key _ h2
  exact Option.ne_none_iff_isSome.mp h3

/-- C10: every resolve, top-level or nested, successful, absent or
exception-propagating, leaves the registry mapping exactly as it was: no
key is added, removed, or rebound by resolution. -/
theorem c10_resolve_preserves_registry :
    (∀ (throws : Nat → Bool) (fuel : Nat) (key : TypeIndex) (st : ResolveState)
       (r : Except Unit (Option Nat)) (st' : ResolveState),
       resolveFuel throws fuel key st = some (r, st') →
       st'.m_factoryList = st.m_factoryList) ∧
    (∀ (c : FactoryContainer) (throws : Nat → Bool) (key : TypeIndex)
       (heap : List Obj) (r : Except Unit (Option Nat)) (st' : ResolveState),
       c.Resolve throws key heap = some (r, st') →
       st'.m_factoryList = c.m_factoryList) := by
  constructor
  · intro throws fuel key st r st' h
    exact (resolveFuel_pres throws fuel key st r st' h).1
  · intro c throws key heap r st' h
    exact (resolveFuel_pres throws _ key (mkState c heap) r st' h).1

theorem c10_witness :
    (FactoryContainer.empty.RegisterInstance 0 5).Resolve (fun _ => false) 0 [] =
      some ((Except.ok (some 5) : Except Unit (Option Nat)),
        (⟨[(0, .instRecipe 5)], [], [], [Event.push 0, Event.pop 0]⟩ : ResolveState)) ∧
    (⟨[(0, .instRecipe 5)], [], [], [Event.push 0, Event.pop 0]⟩ :
      ResolveState).m_factoryList =
      (FactoryContainer.empty.RegisterInstance 0 5).m_factoryList :=
  ⟨by decide, c10_resolve_preserves_registry.2
    (FactoryContainer.empty.RegisterInstance 0 5) (fun _ => false) 0 []
    (Except.ok (some 5))
    (⟨[(0, .instRecipe 5)], [], [], [Event.push 0, Event.pop 0]⟩ : ResolveState)
    (by decide)⟩

/-- C3 counterexample: register a type binding for interface `0` whose
constructor (implementation tag `10`) throws.  The resolve exits with the
exception propagating and the identity `0` still on the ancestor stack:
the `pop_back` on line 138 is skipped on the throwing exit path, so the
claim that the pushed identity is popped on every exit path is false. -/
theorem c3_counterexample :
    ((FactoryContainer.empty.RegisterType 0 10 []).Resolve (fun i => i == 10) 0 []).map
        (fun p => (p.1, p.2.ancestor_list)) =
      some ((Except.error () : Except Unit (Option Nat)), [0]) ∧
    ([0] : List TypeIndex) ≠ [] := by
  constructor
  · decide
  · decide

/-- C3 (amended): on every normal (non-throwing) exit path — successful
return and absent-marker return alike — the ancestor stack is restored to
exactly what it was when the resolver was entered, and a top-level resolve
that returns normally ends with an empty ancestor stack.  When the invoked
recipe throws, the pop is skipped and the exception propagates with the
stack not restored; the stack is a local of the top-level resolve and is
discarded with it. -/
theorem c3_amended_stack_restored_on_normal_exit :
    (∀ (throws : Nat → Bool) (fuel : Nat) (key : TypeIndex) (st : ResolveState)
       (r : Option Nat) (st' : ResolveState),
       resolveFuel throws fuel key st = some (.ok r, st') →
       st'.ancestor_list = st.ancestor_list) ∧
    (∀ (c : FactoryContainer) (throws : Nat → Bool) (key : TypeIndex)
       (heap : List Obj) (r : Option Nat) (st' : ResolveState),
       c.Resolve throws key heap = some (.ok r, st') →
       st'.ancestor_list = []) := by
  constructor
  · intro throws fuel key st r st' h
    exact (resolveFuel_pres throws fuel key st _ st' h).2.2.2 rfl
  · intro c throws key heap r st' h
    exact (resolveFuel_pres throws _ key (mkState c heap) _ st' h).2.2.2 rfl

theorem c3_witness :
    (FactoryContainer.empty.RegisterType 0 10 []).Resolve (fun _ => false) 0 [] =
      some ((Except.ok (some 0) : Except Unit (Option Nat)),
        (⟨[(0, .typeRecipe 10 [])], [], [⟨10, []⟩],
          [Event.push 0, Event.construct 0 10 [], Event.pop 0]⟩ : ResolveState)) ∧
    (⟨[(0, .typeRecipe 10 [])], [], [⟨10, []⟩],
      [Event.push 0, Event.construct 0 10 [], Event.pop 0]⟩ :
        ResolveState).ancestor_list = [] :=
  ⟨by decide, c3_amended_stack_restored_on_normal_exit.2
    (FactoryContainer.empty.RegisterType 0 10 []) (fun _ => false) 0 [] (some 0)
    (⟨[(0, .typeRecipe 10 [])], [], [⟨10, []⟩],
      [Event.push 0, Event.construct 0 10 [], Event.pop 0]⟩ : ResolveState)
    (by decide)⟩

/-- C1 counterexample: the direct cycle `Register (A, TA, [A])` with
`A = 0`, `TA = 10`.  Resolve of `A` does NOT return the absent marker: it
returns a handle to a freshly constructed `TA` (object `0`) whose cyclic
dependency argument was the absent marker.  Only the innermost nested
re-resolve of `A` yielded absent. -/
theorem c1_counterexample :
    ((FactoryContainer.empty.RegisterType 0 10 [0]).Resolve (fun _ => false) 0 []).map
        Prod.fst ≠ some (.ok none) ∧
    ((FactoryContainer.empty.RegisterType 0 10 [0]).Resolve (fun _ => false) 0 []).map
        Prod.fst = some (.ok (some 0)) := by
  constructor
  · decide
  · decide

/-- C1 (amended): in a dependency cycle the cycle guard makes only the
innermost re-resolve of an interface already on the ancestor stack yield
the absent marker, without invoking its recipe and without changing the
state; the outer resolve still constructs its object with the absent
handle — for the direct cycle `Register (0, 10, [0])`, resolve of `0`
returns a handle to object `0 = ⟨10, [none]⟩` — and the ancestor stack is
empty when any normally-returning top-level resolve returns. -/
theorem c1_amended_cycle_guard :
    (∀ (throws : Nat → Bool) (fuel : Nat) (key : TypeIndex) (st : ResolveState)
       (recipe : Recipe),
       st.m_factoryList.lookup key = some recipe →
       key ∈ st.ancestor_list →
       resolveFuel throws (fuel + 1) key st = some (.ok none, st)) ∧
    ((FactoryContainer.empty.RegisterType 0 10 [0]).Resolve (fun _ => false) 0 [] =
      some ((Except.ok (some 0) : Except Unit (Option Nat)),
        (⟨[(0, .typeRecipe 10 [0])], [], [⟨10, [none]⟩],
          [Event.push 0, Event.construct 0 10 [none], Event.pop 0]⟩ : ResolveState))) ∧
    (∀ (c : FactoryContainer) (throws : Nat → Bool) (key : TypeIndex)
       (heap : List Obj) (r : Option Nat) (st' : ResolveState),
       c.Resolve throws key heap = some (.ok r, st') → st'.ancestor_list = []) := by
  refine ⟨?_, by decide, ?_⟩
  · intro throws fuel key st recipe hl hm
    exact resolveFuel_cycle hl hm
  · intro c throws key heap r st' h
    exact (resolveFuel_pres throws _ key (mkState c heap) _ st' h).2.2.2 rfl

theorem c1_witness :
    resolveFuel (fun _ => false) 1 0
        (⟨[(0, .typeRecipe 10 [0])], [0], [], []⟩ : ResolveState) =
      some (.ok none, (⟨[(0, .typeRecipe 10 [0])], [0], [], []⟩ : ResolveState)) :=
  c1_amended_cycle_guard.1 (fun _ => false) 0 0
    (⟨[(0, .typeRecipe 10 [0])], [0], [], []⟩ : ResolveState)
    (.typeRecipe 10 [0]) (by decide) (by decide)

/-- C4: when a nested resolve for a dependency yields the absent marker
(`none ∈ args`), the containing type recipe still constructs its object,
passing the absent handle to the constructor in place; the resolve returns
a handle to the newly constructed object, so the container never aborts
construction because a nested resolve came back absent. -/
theorem c4_absent_dep_still_constructs :
    ∀ (throws : Nat → Bool) (fuel : Nat) (key impl : Nat) (deps : List TypeIndex)
      (st st2 : ResolveState) (args : List (Option Nat)),
      st.m_factoryList.lookup key = some (.typeRecipe impl deps) →
      key ∉ st.ancestor_list →
      resolveList (resolveFuel throws fuel) deps (pushKey key st) =
        some (.ok args, st2) →
      none ∈ args →
      throws impl = false →
      resolveFuel throws (fuel + 1) key st =
        some (.ok (some st2.heap.length),
          popKey key
            { st2 with
              heap := st2.heap ++ [⟨impl, args⟩]
              events := st2.events ++
                [Event.construct st2.heap.length impl args] }) :=
  fun _ _ _ _ _ _ _ _ hl hm hdeps _ hth =>
    resolveFuel_typeRecipe_eq hl hm hdeps hth

theorem c4_witness :
    ((FactoryContainer.empty.RegisterType 0 10 [1]).m_factoryList.lookup 0 =
      some (.typeRecipe 10 [1])) ∧
    (0 : TypeIndex) ∉
      (mkState (FactoryContainer.empty.RegisterType 0 10 [1]) []).ancestor_list ∧
    (resolveList (resolveFuel (fun _ => false) 1) [1]
        (pushKey 0 (mkState (FactoryContainer.empty.RegisterType 0 10 [1]) [])) =
      some (.ok [none],
        (⟨[(0, .typeRecipe 10 [1])], [0], [], [Event.push 0]⟩ : ResolveState))) ∧
    (none ∈ ([none] : List (Option Nat))) ∧
    (resolveFuel (fun _ => false) 2 0
        (mkState (FactoryContainer.empty.RegisterType 0 10 [1]) []) =
      some (.ok (some (⟨[(0, .typeRecipe 10 [1])], [0], [],
          [Event.push 0]⟩ : ResolveState).heap.length),
        popKey 0
          { (⟨[(0, .typeRecipe 10 [1])], [0], [], [Event.push 0]⟩ : ResolveState) with
            heap := (⟨[(0, .typeRecipe 10 [1])], [0], [],
              [Event.push 0]⟩ : ResolveState).heap ++ [⟨10, [none]⟩]
            events := (⟨[(0, .typeRecipe 10 [1])], [0], [],
              [Event.push 0]⟩ : ResolveState).events ++
                [Event.construct (⟨[(0, .typeRecipe 10 [1])], [0], [],
                  [Event.push 0]⟩ : ResolveState).heap.length 10 [none]] })) :=
  ⟨by decide, by decide, by decide, by decide,
    c4_absent_dep_still_constructs (fun _ => false) 1 0 10 [1]
      (mkState (FactoryContainer.empty.RegisterType 0 10 [1]) [])
      (⟨[(0, .typeRecipe 10 [1])], [0], [], [Event.push 0]⟩ : ResolveState)
      [none] (by decide) (by decide) (by decide) (by decide) (by decide)⟩

/-- C5: an interface registered with an instance binding to handle `h`
resolves to exactly that handle on every resolve, nested (first conjunct,
at any state whose stack does not already hold the key) or top-level
(second conjunct), and no new object is constructed: the heap is unchanged,
so the returned handle is identity-equal to `h` across any number of
resolves. -/
theorem c5_instance_binding_same_handle :
    (∀ (throws : Nat → Bool) (fuel : Nat) (key h : Nat) (st : ResolveState),
       st.m_factoryList.lookup key = some (.instRecipe h) →
       key ∉ st.ancestor_list →
       resolveFuel throws (fuel + 1) key st =
         some (.ok (some h), popKey key (pushKey key st)) ∧
       (popKey key (pushKey key st)).heap = st.heap) ∧
    (∀ (c : FactoryContainer) (throws : Nat → Bool) (key h : Nat)
       (heap : List Obj),
       c.m_factoryList.lookup key = some (.instRecipe h) →
       ∃ st', c.Resolve throws key heap = some (.ok (some h), st') ∧
         st'.heap = heap) := by
  constructor
  · intro throws fuel key h st hl hm
    exact ⟨resolveFuel_instRecipe hl hm, by simp [popKey, pushKey]⟩
  · intro c throws key h heap hl
    refine ⟨popKey key (pushKey key (mkState c heap)), ?_, by simp [popKey, pushKey, mkState]⟩
    rw [FactoryContainer.Resolve]
    exact resolveFuel_instRecipe hl (by simp [mkState])

theorem c5_witness :
    ∃ st', (FactoryContainer.empty.RegisterInstance 0 5).Resolve (fun _ => false)
        0 [] = some (.ok (some 5), st') ∧ st'.heap = [] :=
  c5_instance_binding_same_handle.2 (FactoryContainer.empty.RegisterInstance 0 5)
    (fun _ => false) 0 5 [] (by decide)

/-- C6: an interface registered with a type binding yields a fresh object
on every top-level resolve: two successive resolves (the second starting
from the heap the first produced) return handles to distinct objects, so
no result is memoised across calls. -/
theorem c6_type_binding_fresh_objects :
    ∀ (c : FactoryContainer) (throws : Nat → Bool) (key impl : Nat)
      (deps : List TypeIndex) (heap : List Obj) (id1 id2 : Nat)
      (st1 st2 : ResolveState),
      c.m_factoryList.lookup key = some (.typeRecipe impl deps) →
      c.Resolve throws key heap = some (.ok (some id1), st1) →
      c.Resolve throws key st1.heap = some (.ok (some id2), st2) →
      id1 ≠ id2 := by
  intro c throws key impl deps heap id1 id2 st1 st2 hl h1 h2
  rw [FactoryContainer.Resolve] at h1 h2
  have hm1 : key ∉ (mkState c heap).ancestor_list := by simp [mkState]
  have hm2 : key ∉ (mkState c st1.heap).ancestor_list := by simp [mkState]
  have hl1 : (mkState c heap).m_factoryList.lookup key =
      some (.typeRecipe impl deps) := hl
  have hl2 : (mkState c st1.heap).m_factoryList.lookup key =
      some (.typeRecipe impl deps) := hl
  obtain ⟨a1, sM1, hlist1, hth1, hr1, hst1⟩ :=
    resolveFuel_typeRecipe_ok hl1 hm1 h1
  obtain ⟨a2, sM2, hlist2, hth2, hr2, hst2⟩ :=
    resolveFuel_typeRecipe_ok hl2 hm2 h2
  have hid1 : id1 = sM1.heap.length := Option.some.inj hr1
  have hid2 : id2 = sM2.heap.length := Option.some.inj hr2
  have hheap1 : st1.heap = sM1.heap ++ [⟨impl, a1⟩] := by
    rw [hst1]; simp [popKey]
  have hlt : id1 < st1.heap.length := by
    rw [hheap1, hid1]; simp
  have hext : ∃ t, sM2.heap = st1.heap ++ t := by
    have hp := resolveList_pres (resolveFuel throws (c.m_factoryList.length))
      (fun d s r s' hh => resolveFuel_pres throws _ d s r s' hh) _ _ _ _ hlist2
    obtain ⟨t, ht⟩ := hp.2.1
    exact ⟨t, by simpa [pushKey, mkState] using ht⟩
  obtain ⟨t, ht⟩ := hext
  have hge : st1.heap.length ≤ id2 := by
    rw [hid2, ht]; simp
  omega

theorem c6_witness :
    ((FactoryContainer.empty.RegisterType 0 10 []).m_factoryList.lookup 0 =
      some (.typeRecipe 10 [])) ∧
    ((FactoryContainer.empty.RegisterType 0 10 []).Resolve (fun _ => false) 0 [] =
      some ((Except.ok (some 0) : Except Unit (Option Nat)),
        (⟨[(0, .typeRecipe 10 [])], [], [⟨10, []⟩],
          [Event.push 0, Event.construct 0 10 [], Event.pop 0]⟩ : ResolveState))) ∧
    ((FactoryContainer.empty.RegisterType 0 10 []).Resolve (fun _ => false) 0
        [⟨10, []⟩] =
      some ((Except.ok (some 1) : Except Unit (Option Nat)),
        (⟨[(0, .typeRecipe 10 [])], [], [⟨10, []⟩, ⟨10, []⟩],
          [Event.push 0, Event.construct 1 10 [], Event.pop 0]⟩ : ResolveState))) ∧
    (0 : Nat) ≠ 1 :=
  ⟨by decide, by decide, by decide,
    c6_type_binding_fresh_objects (FactoryContainer.empty.RegisterType 0 10 [])
      (fun _ => false) 0 10 [] [] 0 1
      (⟨[(0, .typeRecipe 10 [])], [], [⟨10, []⟩],
        [Event.push 0, Event.construct 0 10 [], Event.pop 0]⟩ : ResolveState)
      (⟨[(0, .typeRecipe 10 [])], [], [⟨10, []⟩, ⟨10, []⟩],
        [Event.push 0, Event.construct 1 10 [], Event.pop 0]⟩ : ResolveState)
      (by decide) (by decide) (by decide)⟩

/-- C7: registration always replaces: after registering `(key, ia, da)` and
then `(key, ib, db)`, looking the key up finds exactly the second recipe,
and a successful resolve of the key constructs an object whose
implementation is `ib`; moreover every container reachable through the
registration API has duplicate-free registry keys, so each present
interface identity has exactly one associated recipe. -/
theorem c7_reregistration_replaces :
    (∀ (c : FactoryContainer) (key ia ib : Nat) (da db : List TypeIndex),
       ((c.RegisterType key ia da).RegisterType key ib db).m_factoryList.lookup
         key = some (.typeRecipe ib db)) ∧
    (∀ (c : FactoryContainer) (key ia ib : Nat) (da db : List TypeIndex)
       (throws : Nat → Bool) (heap : List Obj) (id : Nat) (st' : ResolveState),
       ((c.RegisterType key ia da).RegisterType key ib db).Resolve throws key
         heap = some (.ok (some id), st') →
       ∃ args, st'.heap.get? id = some ⟨ib, args⟩) ∧
    (∀ ops : List Op, ((applyOps ops).m_factoryList.map Prod.fst).Nodup) := by
  refine ⟨?_, ?_, applyOps_keys_nodup⟩
  · intro c key ia ib da db
    exact lookup_RegisterFactory_self _ _ _
  · intro c key ia ib da db throws heap id st' h
    rw [FactoryContainer.Resolve] at h
    have hl : (mkState ((c.RegisterType key ia da).RegisterType key ib db)
        heap).m_factoryList.lookup key = some (.typeRecipe ib db) :=
      lookup_RegisterFactory_self _ _ _
    have hm : key ∉ (mkState ((c.RegisterType key ia da).RegisterType key ib db)
        heap).ancestor_list := by simp [mkState]
    obtain ⟨args, st2, hlist, hth, hr, hst'⟩ := resolveFuel_typeRecipe_ok hl hm h
    refine ⟨args, ?_⟩
    rw [hst']
    have hid : id = st2.heap.length := Option.some.inj hr
    simp [popKey, hid, List.get?_eq_getElem?, List.getElem?_concat_length]

theorem c7_witness :
    (((FactoryContainer.empty.RegisterType 0 9 []).RegisterType 0 10
        []).Resolve (fun _ => false) 0 [] =
      some ((Except.ok (some 0) : Except Unit (Option Nat)),
        (⟨[(0, .typeRecipe 10 [])], [], [⟨10, []⟩],
          [Event.push 0, Event.construct 0 10 [], Event.pop 0]⟩ : ResolveState))) ∧
    (∃ args, (⟨[(0, .typeRecipe 10 [])], [], [⟨10, []⟩],
        [Event.push 0, Event.construct 0 10 [], Event.pop 0]⟩ :
          ResolveState).heap.get? 0 = some ⟨10, args⟩) :=
  ⟨by decide,
    c7_reregistration_replaces.2.1 FactoryContainer.empty 0 9 10 [] []
      (fun _ => false) [] 0
      (⟨[(0, .typeRecipe 10 [])], [], [⟨10, []⟩],
        [Event.push 0, Event.construct 0 10 [], Event.pop 0]⟩ : ResolveState)
      (by decide)⟩

/-- C8: resolving an interface with no registry entry — never registered,
or with the last operation touching it an `Unregister` — returns the absent
marker, never an exceptional signal, and leaves the state untouched; and
`Unregister` on an absent key is a no-op, so a second consecutive
`Unregister` of the same key changes nothing. -/
theorem c8_absent_resolves_to_absent_marker :
    (∀ (c : FactoryContainer) (throws : Nat → Bool) (key : TypeIndex)
       (heap : List Obj),
       c.m_factoryList.lookup key = none →
       c.Resolve throws key heap = some (.ok none, mkState c heap)) ∧
    (∀ (ops : List Op) (key : TypeIndex),
       (NoTouch ops key ∨
         ∃ pre post, ops = pre ++ Op.unreg key :: post ∧ NoTouch post key) →
       (applyOps ops).m_factoryList.lookup key = none) ∧
    (∀ (ops : List Op) (key : TypeIndex),
       ((applyOps ops).Unregister key).Unregister key =
         (applyOps ops).Unregister key) := by
  refine ⟨?_, ?_, ?_⟩
  · intro c throws key heap hl
    rw [FactoryContainer.Resolve]
    exact resolveFuel_lookup_none hl
  · intro ops key h
    rcases h with h | ⟨pre, post, rfl, hpost⟩
    · rw [applyOps, lookup_foldl_noTouch h]
      rfl
    · rw [applyOps, List.foldl_append, List.foldl_cons,
        lookup_foldl_noTouch hpost]
      exact lookup_Unregister_self (applyOps_keys_nodup pre)
  · intro ops key
    exact Unregister_absent (lookup_Unregister_self (applyOps_keys_nodup ops))

theorem c8_witness :
    (applyOps [Op.regType 1 11 []]).m_factoryList.lookup 0 = none :=
  c8_absent_resolves_to_absent_marker.2.1 [Op.regType 1 11 []] 0
    (Or.inl (by decide))

/-- `resolveDepsOrd` over `resolveFuel` returns normally exactly when the
chosen positions form an order-chain of nested resolves. -/
theorem resolveDepsOrd_ok_iff_ordChain {throws : Nat → Bool} {fuel : Nat} :
    ∀ {order : List Nat} {deps : List TypeIndex} {st : ResolveState}
      {phs : List (Nat × Option Nat)} {st' : ResolveState},
      resolveDepsOrd (resolveFuel throws fuel) order deps st =
        some (.ok phs, st') ↔
      OrdChain throws fuel order deps st phs st' := by
  intro order
  induction order with
  | nil =>
    intro deps st phs st'
    constructor
    · intro h
      simp only [resolveDepsOrd, Option.some.injEq, Prod.mk.injEq,
        Except.ok.injEq] at h
      obtain ⟨rfl, rfl⟩ := h
      exact .nil deps st
    · intro h
      cases h
      simp [resolveDepsOrd]
  | cons i rest ih =>
    intro deps st phs st'
    constructor
    · intro h
      rw [resolveDepsOrd] at h
      split at h
      · exact absurd h (by simp)
      · rename_i d hd
        split at h
        · exact absurd h (by simp)
        · exact absurd h (by simp)
        · rename_i h1 st1 heq
          split at h
          · exact absurd h (by simp)
          · exact absurd h (by simp)
          · rename_i phs2 st2 heq2
            obtain ⟨rfl, rfl⟩ := by simpa using h
            exact .cons hd heq (ih.mp heq2)
    · intro h
      cases h with
      | cons hd hr tl =>
        rw [List.get?_eq_getElem?] at hd
        simp [resolveDepsOrd, hd, hr, ih.mpr tl]

/-- An order-chain records exactly the chosen positions, in evaluation
order. -/
theorem OrdChain.keys_eq {throws : Nat → Bool} {fuel : Nat} :
    ∀ {order : List Nat} {deps : List TypeIndex} {st : ResolveState}
      {phs : List (Nat × Option Nat)} {st' : ResolveState},
      OrdChain throws fuel order deps st phs st' → phs.map Prod.fst = order := by
  intro order deps st phs st' h
  induction h with
  | nil => rfl
  | cons _ _ _ ih => simpa using ih

/-- First-match lookup finds the unique entry of a duplicate-free
association list. -/
theorem lookup_of_mem_of_nodup :
    ∀ {phs : List (Nat × Option Nat)} {i : Nat} {h : Option Nat},
      (phs.map Prod.fst).Nodup → (i, h) ∈ phs → phs.lookup i = some h := by
  intro phs
  induction phs with
  | nil => intro i h _ hm; cases hm
  | cons p rest ih =>
    intro i h hn hm
    rw [List.map_cons, List.nodup_cons] at hn
    rcases List.mem_cons.mp hm with rfl | hm2
    · rw [List.lookup]
      simp
    · have hne : p.1 ≠ i := by
        intro he
        exact hn.1 (List.mem_map.mpr ⟨(i, h), hm2, he.symm⟩)
      rw [List.lookup]
      have hbeq : (i == p.1) = false := by
        simpa using fun he2 => hne he2.symm
      rw [hbeq]
      exact ih hn.2 hm2

/-- Looking up position `j + k` in the zip of consecutive positions with
handles finds the `k`-th handle. -/
theorem lookup_zip_range' :
    ∀ (hs : List (Option Nat)) (j k : Nat), k < hs.length →
      ((List.range' j hs.length).zip hs).lookup (j + k) = hs.get? k := by
  intro hs
  induction hs with
  | nil => intro j k hk; exact absurd hk (Nat.not_lt_zero k)
  | cons h hs ih =>
    intro j k hk
    have hz : (List.range' j (h :: hs).length).zip (h :: hs) =
        (j, h) :: (List.range' (j + 1) hs.length).zip hs := rfl
    cases k with
    | zero =>
      rw [hz, List.lookup]
      have hb : (j + 0 == j) = true := by simp
      rw [hb]
      rfl
    | succ k =>
      rw [hz, List.lookup]
      have hne : j + (k + 1) ≠ j := by omega
      have hb : (j + (k + 1) == j) = false := by simp [hne]
      rw [hb]
      have harith : j + (k + 1) = (j + 1) + k := by omega
      rw [harith]
      have hk2 : k < hs.length := by
        simp only [List.length_cons] at hk
        omega
      rw [ih (j + 1) k hk2]
      rfl

/-- Assembling from the left-to-right chain's pairs recovers the plain
handle list: positional binding is the identity when the evaluation order
is the declaration order. -/
theorem assembleArgs_zip_range (hs : List (Option Nat)) :
    assembleArgs hs.length ((List.range hs.length).zip hs) = hs := by
  apply List.ext_getElem?
  intro n
  by_cases hn : n < hs.length
  · rw [assembleArgs, List.getElem?_map, List.getElem?_range hn,
      Option.map_some']
    have hz := lookup_zip_range' hs 0 n hn
    rw [Nat.zero_add] at hz
    rw [← List.range_eq_range'] at hz
    rw [hz, List.get?_eq_getElem?, List.getElem?_eq_getElem hn]
    rfl
  · have h1 : (assembleArgs hs.length
        ((List.range hs.length).zip hs)).length = hs.length := by
      simp [assembleArgs]
    rw [List.getElem?_eq_none (by omega), List.getElem?_eq_none (by omega)]

/-- Evaluating the pack-expanded arguments in the left-to-right order is
exactly the reference `resolveList` run, with each handle recorded at its
declaration position. -/
theorem resolveDepsOrd_range'
    (resolve : TypeIndex → ResolveState → Option (Except Unit (Option Nat) × ResolveState)) :
    ∀ (ds : List TypeIndex) (j : Nat) (deps : List TypeIndex),
      deps.drop j = ds →
      ∀ st : ResolveState,
        resolveDepsOrd resolve (List.range' j ds.length) deps st =
          match resolveList resolve ds st with
          | none => none
          | some (.error e, st2) => some (.error e, st2)
          | some (.ok hs, st2) =>
            some (.ok ((List.range' j ds.length).zip hs), st2) := by
  intro ds
  induction ds with
  | nil =>
    intro j deps hdrop st
    simp [resolveDepsOrd, resolveList, List.range']
  | cons d ds ih =>
    intro j deps hdrop st
    have hget : deps[j]? = some d := by
      have h0 : (deps.drop j)[0]? = some d := by rw [hdrop]; simp
      rw [List.getElem?_drop] at h0
      simpa using h0
    have hdrop2 : deps.drop (j + 1) = ds := by
      have h1 : deps.drop (j + 1) = (deps.drop j).drop 1 := by
        rw [List.drop_drop]
      rw [h1, hdrop]
      rfl
    have hrange : List.range' j (d :: ds).length =
        j :: List.range' (j + 1) ds.length := rfl
    rw [hrange]
    have hstep : resolveDepsOrd resolve (j :: List.range' (j + 1) ds.length)
        deps st =
      match resolve d st with
      | none => none
      | some (.error e, st1) => some (.error e, st1)
      | some (.ok h, st1) =>
        match resolveDepsOrd resolve (List.range' (j + 1) ds.length) deps st1 with
        | none => none
        | some (.error e, st2) => some (.error e, st2)
        | some (.ok phs, st2) => some (.ok ((j, h) :: phs), st2) := by
      rw [resolveDepsOrd]
      rw [List.get?_eq_getElem?, hget]
    rw [hstep, resolveList]
    rcases hres : resolve d st with _ | ⟨r, st1⟩
    · rfl
    · rcases r with e | h
      · rfl
      · have ihj := ih (j + 1) deps hdrop2 st1
        simp only [ihj]
        rcases hres2 : resolveList resolve ds st1 with _ | ⟨r2, st2⟩
        · simp [hres2]
        · rcases r2 with e | hs
          · simp [hres2]
          · simp [hres2]

/-- Inversion of a normally-returning `resolveOrd` on a type binding: the
chosen positions were all evaluated, the constructor did not throw, and the
result is a handle to the object appended to the heap with the positionally
assembled argument list. -/
theorem resolveOrd_typeRecipe_ok {throws : Nat → Bool} {fuel : Nat}
    {order : List Nat} {key impl : Nat} {deps : List TypeIndex}
    {st st' : ResolveState} {r : Option Nat}
    (hl : st.m_factoryList.lookup key = some (.typeRecipe impl deps))
    (hm : key ∉ st.ancestor_list)
    (h : resolveOrd throws fuel order key st = some (.ok r, st')) :
    ∃ phs st2,
      resolveDepsOrd (resolveFuel throws fuel) order deps (pushKey key st) =
        some (.ok phs, st2) ∧
      throws impl = false ∧
      r = some st2.heap.length ∧
      st' = popKey key
        { st2 with
          heap := st2.heap ++ [⟨impl, assembleArgs deps.length phs⟩]
          events := st2.events ++
            [Event.construct st2.heap.length impl
              (assembleArgs deps.length phs)] } := by
  simp only [resolveOrd, hl, hm, if_false] at h
  split at h
  · exact absurd h (by simp)
  · exact absurd h (by simp)
  · rename_i phs st2 heq
    split at h
    · exact absurd h (by simp)
    · rename_i hth
      obtain ⟨h1, rfl⟩ := by simpa using h
      exact ⟨phs, st2, heq, by simpa using hth, h1.symm, rfl⟩

/-- With the left-to-right evaluation order, `resolveOrd` coincides with
the reference embedding `resolveFuel` on a type-bound key. -/
theorem resolveOrd_range_eq_resolveFuel {throws : Nat → Bool} {fuel : Nat}
    {key impl : Nat} {deps : List TypeIndex} {st : ResolveState}
    (hl : st.m_factoryList.lookup key = some (.typeRecipe impl deps)) :
    resolveOrd throws fuel (List.range deps.length) key st =
      resolveFuel throws (fuel + 1) key st := by
  by_cases hm : key ∈ st.ancestor_list
  · simp [resolveOrd, resolveFuel, hl, hm]
  · simp only [resolveOrd, resolveFuel, hl, hm, if_false]
    have hcorr := resolveDepsOrd_range' (resolveFuel throws fuel) deps 0 deps
      (by simp) (pushKey key st)
    rw [List.range_eq_range']
    rw [hcorr]
    rcases hres : resolveList (resolveFuel throws fuel) deps (pushKey key st)
      with _ | ⟨r, st2⟩
    · simp [hres]
    · rcases r with e | hs
      · simp [hres]
      · have hlen : hs.length = deps.length :=
          (resolveList_ok_iff_depChain.mp hres).length_eq
        have hassemble : assembleArgs deps.length
            ((List.range' 0 deps.length).zip hs) = hs := by
          rw [← List.range_eq_range', ← hlen]
          exact assembleArgs_zip_range hs
        simp [hres, hassemble]

/-- C2 counterexample: the pack expansion on line 61 passes the nested
resolves as function-call arguments, whose evaluation order C++ leaves
unspecified.  Register `0 ↦ (10, [1, 2])`, `1 ↦ (11, [])`, `2 ↦ (12, [])`
and evaluate the two argument resolves right-to-left (order `[1, 0]`, a
permutation of the positions and hence an admissible implementation
choice): the dependency declared second (interface `2`) is resolved before
the dependency declared first (interface `1`) — `push 2` precedes `push 1`
in the trace, and the trace differs from the left-to-right reference run —
so the program does not resolve dependencies in declaration order.  The
constructor still receives the handles positionally: argument 0 is the
handle of dependency 1's object and argument 1 that of dependency 2's. -/
theorem c2_counterexample :
    ([1, 0] : List Nat).Perm (List.range 2) ∧
    resolveOrd (fun _ => false) 2 [1, 0] 0
        (mkState (((FactoryContainer.empty.RegisterType 0 10
          [1, 2]).RegisterType 1 11 []).RegisterType 2 12 []) []) =
      some ((Except.ok (some 2) : Except Unit (Option Nat)),
        (⟨[(2, .typeRecipe 12 []), (1, .typeRecipe 11 []),
            (0, .typeRecipe 10 [1, 2])], [],
          [⟨12, []⟩, ⟨11, []⟩, ⟨10, [some 1, some 0]⟩],
          [Event.push 0, Event.push 2, Event.construct 0 12 [], Event.pop 2,
           Event.push 1, Event.construct 1 11 [], Event.pop 1,
           Event.construct 2 10 [some 1, some 0], Event.pop 0]⟩ :
          ResolveState)) ∧
    ([Event.push 0, Event.push 2, Event.construct 0 12 [], Event.pop 2,
      Event.push 1, Event.construct 1 11 [], Event.pop 1,
      Event.construct 2 10 [some 1, some 0], Event.pop 0] :
        List Event).indexOf (Event.push 2) <
      ([Event.push 0, Event.push 2, Event.construct 0 12 [], Event.pop 2,
        Event.push 1, Event.construct 1 11 [], Event.pop 1,
        Event.construct 2 10 [some 1, some 0], Event.pop 0] :
          List Event).indexOf (Event.push 1) ∧
    (resolveFuel (fun _ => false) 3 0
        (mkState (((FactoryContainer.empty.RegisterType 0 10
          [1, 2]).RegisterType 1 11 []).RegisterType 2 12 []) [])).map
        (fun p => p.2.events) =
      some [Event.push 0, Event.push 1, Event.construct 0 11 [], Event.pop 1,
        Event.push 2, Event.construct 1 12 [], Event.pop 2,
        Event.construct 2 10 [some 0, some 1], Event.pop 0] ∧
    ([Event.push 0, Event.push 2, Event.construct 0 12 [], Event.pop 2,
      Event.push 1, Event.construct 1 11 [], Event.pop 1,
      Event.construct 2 10 [some 1, some 0], Event.pop 0] : List Event) ≠
      [Event.push 0, Event.push 1, Event.construct 0 11 [], Event.pop 1,
        Event.push 2, Event.construct 1 12 [], Event.pop 2,
        Event.construct 2 10 [some 0, some 1], Event.pop 0] := by
  refine ⟨by decide, by decide, by decide, by decide, by decide⟩

/-- C2 (amended): for every type binding with declared dependencies
`D1 … Dn`, a resolve of the bound interface performs the `n` nested
dependency resolves in an implementation-chosen argument evaluation order
(any permutation of the declaration positions — C++ leaves the choice
unspecified), resolves each declared dependency exactly once, passes the
`n` resolved handles to the implementation's constructor positionally in
declaration order — the constructor argument at position `i` is the handle
produced by the nested resolve of `Di`, whatever the evaluation order —
and the constructor runs only after all `n` nested resolves have completed
(its `construct` event follows every dependency event); with the
left-to-right order the run coincides with the reference embedding
`resolveFuel`. -/
theorem c2_amended_positional_order :
    (∀ (throws : Nat → Bool) (fuel : Nat) (order : List Nat) (key impl : Nat)
       (deps : List TypeIndex) (st st' : ResolveState) (r : Option Nat),
       st.m_factoryList.lookup key = some (.typeRecipe impl deps) →
       key ∉ st.ancestor_list →
       order.Perm (List.range deps.length) →
       resolveOrd throws fuel order key st = some (.ok r, st') →
       ∃ (phs : List (Nat × Option Nat)) (st2 : ResolveState),
         OrdChain throws fuel order deps (pushKey key st) phs st2 ∧
         phs.map Prod.fst = order ∧
         (∀ i, i < deps.length → ∃ h, (i, h) ∈ phs ∧
           (assembleArgs deps.length phs).get? i = some h) ∧
         throws impl = false ∧
         r = some st2.heap.length ∧
         st'.heap = st2.heap ++ [⟨impl, assembleArgs deps.length phs⟩] ∧
         st'.events = st2.events ++
           [Event.construct st2.heap.length impl (assembleArgs deps.length phs),
            Event.pop key]) ∧
    (∀ (throws : Nat → Bool) (fuel : Nat) (key impl : Nat)
       (deps : List TypeIndex) (st : ResolveState),
       st.m_factoryList.lookup key = some (.typeRecipe impl deps) →
       resolveOrd throws fuel (List.range deps.length) key st =
         resolveFuel throws (fuel + 1) key st) := by
  constructor
  · intro throws fuel order key impl deps st st' r hl hm hperm hres
    obtain ⟨phs, st2, hlist, hth, hr, hst'⟩ := resolveOrd_typeRecipe_ok hl hm hres
    have hchain := resolveDepsOrd_ok_iff_ordChain.mp hlist
    have hkeys := hchain.keys_eq
    have hnodup : (phs.map Prod.fst).Nodup := by
      rw [hkeys]
      exact hperm.nodup_iff.mpr (List.nodup_range _)
    refine ⟨phs, st2, hchain, hkeys, ?_, hth, hr, ?_, ?_⟩
    · intro i hi
      have hio : i ∈ order := hperm.mem_iff.mpr (List.mem_range.mpr hi)
      have himem : i ∈ phs.map Prod.fst := by rw [hkeys]; exact hio
      obtain ⟨⟨i2, h⟩, hmem, hfst⟩ := List.mem_map.mp himem
      subst hfst
      refine ⟨h, hmem, ?_⟩
      rw [assembleArgs, List.get?_eq_getElem?, List.getElem?_map,
        List.getElem?_range hi, Option.map_some']
      rw [lookup_of_mem_of_nodup hnodup hmem]
      rfl
    · rw [hst']
      simp [popKey]
    · rw [hst']
      simp [popKey]
  · intro throws fuel key impl deps st hl
    exact resolveOrd_range_eq_resolveFuel hl

theorem c2_amended_witness :
    ((mkState (((FactoryContainer.empty.RegisterType 0 10
        [1, 2]).RegisterType 1 11 []).RegisterType 2 12 [])
        []).m_factoryList.lookup 0 = some (.typeRecipe 10 [1, 2])) ∧
    (0 : TypeIndex) ∉ (mkState (((FactoryContainer.empty.RegisterType 0 10
        [1, 2]).RegisterType 1 11 []).RegisterType 2 12 [])
        []).ancestor_list ∧
    ([1, 0] : List Nat).Perm (List.range ([1, 2] : List TypeIndex).length) ∧
    (resolveOrd (fun _ => false) 2 [1, 0] 0
        (mkState (((FactoryContainer.empty.RegisterType 0 10
          [1, 2]).RegisterType 1 11 []).RegisterType 2 12 []) []) =
      some ((Except.ok (some 2) : Except Unit (Option Nat)),
        (⟨[(2, .typeRecipe 12 []), (1, .typeRecipe 11 []),
            (0, .typeRecipe 10 [1, 2])], [],
          [⟨12, []⟩, ⟨11, []⟩, ⟨10, [some 1, some 0]⟩],
          [Event.push 0, Event.push 2, Event.construct 0 12 [], Event.pop 2,
           Event.push 1, Event.construct 1 11 [], Event.pop 1,
           Event.construct 2 10 [some 1, some 0], Event.pop 0]⟩ :
          ResolveState))) ∧
    (∃ (phs : List (Nat × Option Nat)) (st2 : ResolveState),
      OrdChain (fun _ => false) 2 [1, 0] [1, 2]
        (pushKey 0 (mkState (((FactoryContainer.empty.RegisterType 0 10
          [1, 2]).RegisterType 1 11 []).RegisterType 2 12 []) [])) phs st2 ∧
      phs.map Prod.fst = [1, 0] ∧
      (∀ i, i < ([1, 2] : List TypeIndex).length → ∃ h, (i, h) ∈ phs ∧
        (assembleArgs ([1, 2] : List TypeIndex).length phs).get? i = some h) ∧
      (fun _ => false) 10 = false ∧
      (some 2 : Option Nat) = some st2.heap.length ∧
      (⟨[(2, .typeRecipe 12 []), (1, .typeRecipe 11 []),
          (0, .typeRecipe 10 [1, 2])], [],
        [⟨12, []⟩, ⟨11, []⟩, ⟨10, [some 1, some 0]⟩],
        [Event.push 0, Event.push 2, Event.construct 0 12 [], Event.pop 2,
         Event.push 1, Event.construct 1 11 [], Event.pop 1,
         Event.construct 2 10 [some 1, some 0], Event.pop 0]⟩ :
        ResolveState).heap = st2.heap ++
          [⟨10, assembleArgs ([1, 2] : List TypeIndex).length phs⟩] ∧
      (⟨[(2, .typeRecipe 12 []), (1, .typeRecipe 11 []),
          (0, .typeRecipe 10 [1, 2])], [],
        [⟨12, []⟩, ⟨11, []⟩, ⟨10, [some 1, some 0]⟩],
        [Event.push 0, Event.push 2, Event.construct 0 12 [], Event.pop 2,
         Event.push 1, Event.construct 1 11 [], Event.pop 1,
         Event.construct 2 10 [some 1, some 0], Event.pop 0]⟩ :
        ResolveState).events = st2.events ++
          [Event.construct st2.heap.length 10
            (assembleArgs ([1, 2] : List TypeIndex).length phs),
           Event.pop 0]) :=
  ⟨by decide, by decide, by decide, by decide,
    c2_amended_positional_order.1 (fun _ => false) 2 [1, 0] 0 10 [1, 2]
      (mkState (((FactoryContainer.empty.RegisterType 0 10
        [1, 2]).RegisterType 1 11 []).RegisterType 2 12 []) [])
      (⟨[(2, .typeRecipe 12 []), (1, .typeRecipe 11 []),
          (0, .typeRecipe 10 [1, 2])], [],
        [⟨12, []⟩, ⟨11, []⟩, ⟨10, [some 1, some 0]⟩],
        [Event.push 0, Event.push 2, Event.construct 0 12 [], Event.pop 2,
         Event.push 1, Event.construct 1 11 [], Event.pop 1,
         Event.construct 2 10 [some 1, some 0], Event.pop 0]⟩ : ResolveState)
      (some 2) (by decide) (by decide) (by decide) (by decide)⟩
